import Mathlib

/-!
# Appointment booking: slot catalog and booking ledger

A shallow embedding of the scheduling core of `src/Appointment.js`
(the `AppointmentBooker` component): the slot generator
`generateTimeSlots`, the label formatter `formatTime12Hour`, and the three
event handlers `handleSlotClick`, `handleDateChange`, `handleAdminBook`.

Modelling conventions.

* JavaScript numbers occurring here are non-negative integers far below
  `2^53`, where the arithmetic of doubles is exact, so they are `Nat`;
  `Math.floor(time / 60)` is `time / 60` and `%` is `%`.
* JavaScript strings are `String`; every string the handlers inspect
  character by character is either rejected or consists of ASCII digits and
  a colon, on which code points and UTF-16 code units coincide.
* A `Set` of strings is the list of its elements in insertion order;
  `new Set(iterable)` is `newSet`.
* The component state (`useState` cells) is the record `State`; a handler is
  a function from the state of the render it closes over to the next state.
  Each handler also returns an `Outcome` naming the branch it took.
* The `setTimeout` calls that blank the message three seconds later are
  presentation timing and are not part of the embedding.
-/

namespace AppointmentBooker

/-! ## Host-language primitives -/

/-- The method `String.prototype.padStart(targetLength, padString)`: when the
string is shorter than `targetLength`, copies of `padString` (cut to the
missing length) are put in front of it. -/
def padStart (s : String) (targetLength : Nat) (padString : String) : String :=
  if targetLength ≤ s.length ∨ padString.length = 0 then s
  else
    let fillLen := targetLength - s.length
    String.mk (((List.replicate fillLen padString.data).flatten).take fillLen ++ s.data)

/-- The method `String.prototype.split(separator)` for a one-character
separator, on the characters of the string. -/
def splitChars (sep : Char) : List Char → List (List Char)
  | [] => [[]]
  | c :: cs =>
    if c = sep then [] :: splitChars sep cs
    else
      match splitChars sep cs with
      | [] => [[c]]
      | p :: ps => (c :: p) :: ps

/-- The method `split` on strings. -/
def split (s : String) (sep : Char) : List String :=
  (splitChars sep s.data).map String.mk

/-- Whether a character is one of `0` .. `9`. -/
def isAsciiDigit (c : Char) : Bool :=
  decide (48 ≤ c.toNat ∧ c.toNat ≤ 57)

/-- The conversion `Number(text)` on a string of ASCII digits (the empty string
converts to `0`); any other text is modelled as `none`, standing for `NaN`.
The handlers only convert pieces of a string that has matched the admin time
pattern, which are non-empty digit strings. -/
def Number (s : String) : Option Nat :=
  if s.data.all isAsciiDigit then
    some (s.data.foldl (fun acc c => acc * 10 + (c.toNat - 48)) 0)
  else none

/-- The constructor `new Set(iterable)` adds the elements one by one; adding
an element already present changes nothing. -/
def setAdd (s : List String) (x : String) : List String :=
  if x ∈ s then s else s ++ [x]

/-- The set built by `new Set(iterable)`, in insertion order. -/
def newSet (l : List String) : List String :=
  l.foldl setAdd []

/-! ## Regular expressions (the fragment the admin pattern uses) -/

/-- Regular expressions without repetition: a character, a character range,
concatenation, alternation and the greedy option `?`. -/
inductive Re where
  | chr (c : Char)
  | range (lo hi : Char)
  | seq (a b : Re)
  | alt (a b : Re)
  | opt (a : Re)

/-- Backtracking matcher: `r.run cs k` tries every way of matching `r` at the
front of `cs`, in the order a backtracking engine does, and succeeds when the
continuation `k` accepts the rest. -/
def Re.run : Re → List Char → (List Char → Bool) → Bool
  | .chr c, cs, k =>
    match cs with
    | [] => false
    | d :: ds => d = c && k ds
  | .range lo hi, cs, k =>
    match cs with
    | [] => false
    | d :: ds => (lo.toNat ≤ d.toNat && d.toNat ≤ hi.toNat) && k ds
  | .seq a b, cs, k => a.run cs (fun rest => b.run rest k)
  | .alt a b, cs, k => a.run cs k || b.run cs k
  | .opt a, cs, k => a.run cs k || k cs

/-- The test `s.match(/^r$/)` is not null: with both anchors and no flags the
match must start at the first character and end at the last. -/
def Re.matchesWhole (r : Re) (s : String) : Bool :=
  r.run s.data (fun rest => rest.isEmpty)

/-- The pattern `([01]?[0-9]|2[0-3]):[0-5][0-9]` of `handleAdminBook`. -/
def adminTimePattern : Re :=
  .seq
    (.alt (.seq (.opt (.range '0' '1')) (.range '0' '9'))
          (.seq (.chr '2') (.range '0' '3')))
    (.seq (.chr ':') (.seq (.range '0' '5') (.range '0' '9')))

/-! ## Data model -/

/-- The constant `WORKING_HOURS`: hours of the day and a duration in minutes. -/
structure WorkingHours where
  start : Nat
  end_ : Nat
  slotDuration : Nat
  deriving DecidableEq, Repr

/-- The configuration written in the component. -/
def WORKING_HOURS : WorkingHours :=
  { start := 9, end_ := 17, slotDuration := 30 }

/-- An element of the array `generateTimeSlots` returns. -/
structure Slot where
  time : String
  display : String
  deriving DecidableEq, Repr

/-- The state cells of the component. -/
structure State where
  selectedDate : String
  bookedSlots : List String
  confirmationMessage : String
  adminTime : String
  deriving DecidableEq, Repr

/-- Which branch of a booking handler ran. `unknownSlot` is the rejection the
specification names `UnknownSlotError`. -/
inductive Outcome where
  | booked
  | alreadyBooked
  | malformedTime
  | outOfRange
  | unknownSlot
  deriving DecidableEq, Repr

/-! ## Slot generation -/

/-- Format time to 12-hour format. -/
def formatTime12Hour (hours minutes : Nat) : String :=
  let period := if hours ≥ 12 then "PM" else "AM"
  let displayHours := if hours > 12 then hours - 12 else (if hours = 0 then 12 else hours)
  Nat.repr displayHours ++ ":" ++ padStart (Nat.repr minutes) 2 "0" ++ " " ++ period

/-- The 24-hour text built in `generateTimeSlots` and again in
`handleAdminBook`: both numbers padded to two digits, joined by a colon. -/
def timeString (hours minutes : Nat) : String :=
  padStart (Nat.repr hours) 2 "0" ++ ":" ++ padStart (Nat.repr minutes) 2 "0"

/-- The body of the loop of `generateTimeSlots` for one value of `time`. -/
def slotAt (time : Nat) : Slot :=
  let hours := time / 60
  let minutes := time % 60
  { time := timeString hours minutes, display := formatTime12Hour hours minutes }

/-- The `for` loop of `generateTimeSlots`, with a bound on the number of
iterations still allowed; `none` means the bound was reached with the loop
condition still true. -/
def generateLoop (wh : WorkingHours) : Nat → Nat → List Slot → Option (List Slot)
  | 0, time, slots => if time < wh.end_ * 60 then none else some slots
  | fuel + 1, time, slots =>
    if time < wh.end_ * 60 then
      generateLoop wh fuel (time + wh.slotDuration) (slots ++ [slotAt time])
    else some slots

/-- Generate all slots within working hours. The loop variable grows by
`slotDuration` at each turn, so `end*60 - start*60` turns suffice whenever
the duration is positive; with duration `0` and `start < end` the loop of the
source never ends, and the result here is `none`. -/
def generateTimeSlots (wh : WorkingHours) : Option (List Slot) :=
  generateLoop wh (wh.end_ * 60 - wh.start * 60) (wh.start * 60) []

/-- The constant `timeSlots = generateTimeSlots()` of the component. For the
configuration `WORKING_HOURS` the loop ends (`generateTimeSlots_eq`), so the
default is never taken. -/
def timeSlots : List Slot :=
  (generateTimeSlots WORKING_HOURS).getD []

/-! ## Event handlers -/

/-- The text of `timeSlots.find(s => s.time === slotTime)?.display` inside a
template literal: the label, or `undefined` when no slot has that time. -/
def displayOf (timeSlots : List Slot) (slotTime : String) : String :=
  match timeSlots.find? (fun s => s.time = slotTime) with
  | some s => s.display
  | none => "undefined"

/-- Handle slot booking. -/
def handleSlotClick (timeSlots : List Slot) (st : State) (slotTime : String) :
    Outcome × State :=
  if slotTime ∈ st.bookedSlots then
    (.alreadyBooked,
      { st with confirmationMessage :=
          "This slot (" ++ displayOf timeSlots slotTime ++ ") is already booked." })
  else
    (.booked,
      { st with
        bookedSlots := newSet (st.bookedSlots ++ [slotTime])
        confirmationMessage :=
          "Appointment booked for " ++ displayOf timeSlots slotTime ++ "!" })

/-- Handle date change: clear booked slots. -/
def handleDateChange (st : State) (newDate : String) : State :=
  { st with selectedDate := newDate, bookedSlots := newSet [], confirmationMessage := "" }

/-- The guard of `handleAdminBook`, the negation of
`!adminTime || !adminTime.match(...)`: the text is not the empty string (the
only falsy string) and matches the pattern. -/
def adminTimeOk (adminTime : String) : Bool :=
  !(decide (adminTime.length = 0) || !(adminTimePattern.matchesWhole adminTime))

/-- The destructuring `const [hours, minutes] = adminTime.split(':').map(Number)`:
the first two elements, each possibly `NaN` or missing (`none`). -/
def parseAdminTime (adminTime : String) : Option Nat × Option Nat :=
  match (split adminTime ':').map Number with
  | [] => (none, none)
  | [h] => (h, none)
  | h :: m :: _ => (h, m)

/-- The range test of `handleAdminBook`,
`hours < start || hours >= end || minutes % 30 !== 0`. A comparison with `NaN`
or `undefined` is false and `NaN % 30 !== 0` is true. -/
def outsideWorkingHours (wh : WorkingHours) (hours minutes : Option Nat) : Bool :=
  (match hours with
    | some h => decide (h < wh.start) || decide (h ≥ wh.end_)
    | none => false) ||
  (match minutes with
    | some m => decide (m % 30 ≠ 0)
    | none => true)

/-- Admin function to pre-book slots; the text typed is the cell `adminTime`.
Once the guard has passed both parsed numbers are present
(`parseAdminTime_of_wellFormed`), so the defaults of `getD` are never used. -/
def handleAdminBook (wh : WorkingHours) (st : State) : Outcome × State :=
  if !(adminTimeOk st.adminTime) then
    (.malformedTime,
      { st with confirmationMessage :=
          "Please enter a valid time in HH:MM format (e.g., 14:00)" })
  else
    let (hours, minutes) := parseAdminTime st.adminTime
    if outsideWorkingHours wh hours minutes then
      (.outOfRange,
        { st with confirmationMessage :=
            "Time must be within working hours (" ++ Nat.repr wh.start ++ ":00-" ++
              Nat.repr wh.end_ ++ ":00) and align with 30-minute slots" })
    else
      let ts := timeString (hours.getD 0) (minutes.getD 0)
      if ts ∈ st.bookedSlots then
        (.alreadyBooked, { st with confirmationMessage := "This slot is already booked" })
      else
        (.booked,
          { st with
            bookedSlots := newSet (st.bookedSlots ++ [ts])
            confirmationMessage :=
              "Admin: Pre-booked slot for " ++
                formatTime12Hour (hours.getD 0) (minutes.getD 0)
            adminTime := "" })

/-! ## Requests and runs -/

/-- The id `handleAdminBook` computes from a text that passes its guard: the
parsed hour and minute, each padded to two digits. -/
def normalizedId (rawTimeText : String) : Option String :=
  if adminTimeOk rawTimeText then
    let (hours, minutes) := parseAdminTime rawTimeText
    some (timeString (hours.getD 0) (minutes.getD 0))
  else none

/-- A booking request: a click on a slot button, or a text typed into the
admin field followed by a click on the pre-book button. -/
inductive Request where
  | click (slotTime : String)
  | admin (rawTimeText : String)
  deriving DecidableEq, Repr

/-- Serve one request; typing the admin text is `setAdminTime`. -/
def request (timeSlots : List Slot) (wh : WorkingHours) (st : State) :
    Request → Outcome × State
  | .click slotTime => handleSlotClick timeSlots st slotTime
  | .admin rawTimeText => handleAdminBook wh { st with adminTime := rawTimeText }

/-- The state after serving the requests in order. -/
def runRequests (timeSlots : List Slot) (wh : WorkingHours) (st : State)
    (rs : List Request) : State :=
  rs.foldl (fun acc r => (request timeSlots wh acc r).2) st

/-- A request asks for the slot `s`: it is a click on `s`, or an admin text
that the handler normalizes to `s`. -/
def Request.asksFor (s : String) : Request → Prop
  | .click slotTime => slotTime = s
  | .admin rawTimeText => normalizedId rawTimeText = some s

instance (s : String) (r : Request) : Decidable (r.asksFor s) :=
  match r with
  | .click slotTime => inferInstanceAs (Decidable (slotTime = s))
  | .admin rawTimeText => inferInstanceAs (Decidable (normalizedId rawTimeText = some s))

/-- The initial state of the component for a given day. -/
def initialState (day : String) : State :=
  { selectedDate := day, bookedSlots := newSet [], confirmationMessage := "", adminTime := "" }

/-! ## The specification's vocabulary

These definitions follow the words of the specification; the theorems compare
them with the definitions above. -/

/-- A number "zero-padded to two digits": a leading `0` for a one-digit
number. -/
def zeroPad2 (n : Nat) : String :=
  if n < 10 then "0" ++ Nat.repr n else Nat.repr n

/-- The hour shown on a 12-hour clock: 12 for hour 0, the hour itself from 1
to 12, the hour minus 12 from 13 to 23. -/
def specDisplayHour (h : Nat) : Nat :=
  if h = 0 then 12 else if h ≤ 12 then h else h - 12

/-- The suffix of the 12-hour label: `AM` before noon, `PM` otherwise. -/
def specPeriod (h : Nat) : String :=
  if h < 12 then "AM" else "PM"

/-- The label `<H>:<MM> <P>`. -/
def specLabel (h m : Nat) : String :=
  Nat.repr (specDisplayHour h) ++ ":" ++ zeroPad2 m ++ " " ++ specPeriod h

/-- The minutes-of-day `start*60, start*60 + d, ...` below `end*60`; there are
`ceil ((end*60 - start*60) / d)` of them. -/
def specTimes (wh : WorkingHours) : List Nat :=
  (List.range ((wh.end_ * 60 - wh.start * 60 + wh.slotDuration - 1) / wh.slotDuration)).map
    (fun k => wh.start * 60 + k * wh.slotDuration)

/-- The slot emitted for minute-of-day `t`: zero-padded `HH:MM` and the
12-hour label of that hour and minute. -/
def specSlot (t : Nat) : Slot :=
  { time := zeroPad2 (t / 60) ++ ":" ++ zeroPad2 (t % 60)
    display := specLabel (t / 60) (t % 60) }

/-- The invariant of a working-hours configuration:
`0 ≤ start < end ≤ 24` and a positive duration dividing `(end - start) * 60`. -/
def ValidConfig (wh : WorkingHours) : Prop :=
  wh.start < wh.end_ ∧ wh.end_ ≤ 24 ∧ 0 < wh.slotDuration ∧
    wh.slotDuration ∣ (wh.end_ - wh.start) * 60

instance (wh : WorkingHours) : Decidable (ValidConfig wh) :=
  inferInstanceAs (Decidable (wh.start < wh.end_ ∧ wh.end_ ≤ 24 ∧ 0 < wh.slotDuration ∧
    wh.slotDuration ∣ (wh.end_ - wh.start) * 60))

/-- The value of a decimal digit character. -/
def digitValue (c : Char) : Nat :=
  c.toNat - 48

/-- The admin time format in words: one or two hour digits giving 0..23, a
colon, two minute digits giving 00..59. -/
def wellFormedTime (s : String) : Bool :=
  match s.data with
  | [h, c, m1, m2] =>
    isAsciiDigit h && decide (c = ':') && isAsciiDigit m1 && isAsciiDigit m2 &&
      decide (digitValue m1 * 10 + digitValue m2 ≤ 59)
  | [h1, h2, c, m1, m2] =>
    isAsciiDigit h1 && isAsciiDigit h2 && decide (c = ':') &&
      isAsciiDigit m1 && isAsciiDigit m2 &&
      decide (digitValue h1 * 10 + digitValue h2 ≤ 23) &&
      decide (digitValue m1 * 10 + digitValue m2 ≤ 59)
  | _ => false

/-- The hour a well-formed admin text denotes: the value of the digits before
the colon. -/
def specHours (s : String) : Nat :=
  match s.data with
  | [h, _, _, _] => digitValue h
  | [h1, h2, _, _, _] => digitValue h1 * 10 + digitValue h2
  | _ => 0

/-- The minute a well-formed admin text denotes: the value of the two digits
after the colon. -/
def specMinutes (s : String) : Nat :=
  match s.data with
  | [_, _, m1, m2] => digitValue m1 * 10 + digitValue m2
  | [_, _, _, m1, m2] => digitValue m1 * 10 + digitValue m2
  | _ => 0

/-- The minute-of-day a slot id denotes, read back with the `split` and
`Number` of the admin handler. -/
def minuteOfDay (id : String) : Option Nat :=
  match parseAdminTime id with
  | (some h, some m) => some (h * 60 + m)
  | _ => none

/-! ## Decimal digits and padding -/

theorem toDigitsCore_length_pos (f n : Nat) (acc : List Char) (hf : 0 < f) :
    acc.length + 1 ≤ (Nat.toDigitsCore 10 f n acc).length := by
  induction f generalizing n acc with
  | zero => omega
  | succ f ih =>
    simp only [Nat.toDigitsCore]
    split
    · simp
    · rcases Nat.eq_zero_or_pos f with h0 | hpos
      · subst h0; simp [Nat.toDigitsCore]
      · have := ih (n / 10) (Nat.digitChar (n % 10) :: acc) hpos
        simp only [List.length_cons] at this
        omega

theorem repr_length_ge_two (n : Nat) (h : 10 ≤ n) : 2 ≤ (Nat.repr n).length := by
  have hne : ¬ (n / 10 = 0) := by omega
  have hpos : 0 < n := by omega
  have := toDigitsCore_length_pos n (n / 10) [Nat.digitChar (n % 10)] hpos
  simpa [Nat.repr, Nat.toDigits, Nat.toDigitsCore, hne, List.asString, String.length] using this

theorem repr_of_lt_ten (n : Nat) (h : n < 10) : Nat.repr n = String.mk [Nat.digitChar n] := by
  interval_cases n <;> rfl

theorem padStart_repr (n : Nat) : padStart (Nat.repr n) 2 "0" = zeroPad2 n := by
  unfold zeroPad2
  split
  · next h =>
    rw [repr_of_lt_ten n h]
    rfl
  · next h =>
    have := repr_length_ge_two n (by omega)
    simp [padStart, this]

theorem timeString_eq (h m : Nat) : timeString h m = zeroPad2 h ++ ":" ++ zeroPad2 m := by
  simp [timeString, padStart_repr]

theorem formatTime12Hour_eq (h m : Nat) : formatTime12Hour h m = specLabel h m := by
  have hd : (if h > 12 then h - 12 else (if h = 0 then 12 else h)) = specDisplayHour h := by
    unfold specDisplayHour; split_ifs <;> omega
  have hp : (if h ≥ 12 then "PM" else "AM") = specPeriod h := by
    unfold specPeriod; split_ifs <;> first | rfl | omega
  simp only [formatTime12Hour, specLabel, hd, hp, padStart_repr]

theorem slotAt_eq (t : Nat) : slotAt t = specSlot t := by
  simp [slotAt, specSlot, timeString_eq, formatTime12Hour_eq]

theorem steps_succ (e t d : Nat) (hd : 0 < d) (ht : t < e) :
    (e - t + d - 1) / d = (e - (t + d) + d - 1) / d + 1 := by
  by_cases hle : t + d ≤ e
  · have : e - t + d - 1 = (e - (t + d) + d - 1) + d := by omega
    rw [this, Nat.add_div_right _ hd]
  · have h1 : e - (t + d) + d - 1 = d - 1 := by omega
    rw [h1, Nat.div_eq_of_lt (by omega : d - 1 < d)]
    have h2 : e - t + d - 1 = (e - t - 1) + d := by omega
    rw [h2, Nat.add_div_right _ hd, Nat.div_eq_of_lt (by omega)]

theorem steps_zero (e t d : Nat) (hd : 0 < d) (ht : ¬ t < e) : (e - t + d - 1) / d = 0 := by
  have : e - t + d - 1 = d - 1 := by omega
  rw [this]; exact Nat.div_eq_of_lt (by omega)

theorem generateLoop_eq (wh : WorkingHours) (hd : 0 < wh.slotDuration) :
    ∀ (fuel time : Nat) (slots : List Slot), wh.end_ * 60 - time ≤ fuel →
      generateLoop wh fuel time slots =
        some (slots ++ (List.range ((wh.end_ * 60 - time + wh.slotDuration - 1) / wh.slotDuration)).map
          (fun k => slotAt (time + k * wh.slotDuration))) := by
  intro fuel
  induction fuel with
  | zero =>
    intro time slots hf
    have hnot : ¬ time < wh.end_ * 60 := by omega
    simp [generateLoop, hnot, steps_zero _ _ _ hd hnot]
  | succ fuel ih =>
    intro time slots hf
    by_cases ht : time < wh.end_ * 60
    · rw [generateLoop, if_pos ht, ih _ _ (by omega), steps_succ _ _ _ hd ht,
        List.range_succ_eq_map]
      simp [Nat.succ_mul, Nat.add_assoc, Function.comp_def, Nat.add_comm wh.slotDuration]
    · simp [generateLoop, ht, steps_zero _ _ _ hd ht]

theorem generateTimeSlots_eq (wh : WorkingHours) (hd : 0 < wh.slotDuration) :
    generateTimeSlots wh = some ((specTimes wh).map slotAt) := by
  rw [generateTimeSlots, generateLoop_eq wh hd _ _ _ (le_refl _)]
  simp [specTimes, Function.comp_def]

/-! ## The admin pattern and the parse -/

theorem char_eq_iff_toNat (c d : Char) : c = d ↔ c.toNat = d.toNat := by
  constructor
  · intro h; rw [h]
  · intro h
    apply Char.ext
    apply UInt32.ext
    exact h

theorem matchesWhole_eq_wellFormedTime (s : String) :
    adminTimePattern.matchesWhole s = wellFormedTime s := by
  obtain ⟨cs⟩ := s
  rw [Bool.eq_iff_iff]
  rcases cs with _ | ⟨a, _ | ⟨b, _ | ⟨c, _ | ⟨d, _ | ⟨e, _ | ⟨f, r⟩⟩⟩⟩⟩⟩ <;>
    simp [Re.matchesWhole, adminTimePattern, Re.run, wellFormedTime, isAsciiDigit, digitValue,
      char_eq_iff_toNat] <;> omega

theorem parseAdminTime_of_wellFormed (s : String) (h : wellFormedTime s = true) :
    parseAdminTime s = (some (specHours s), some (specMinutes s)) ∧
      specHours s ≤ 23 ∧ specMinutes s ≤ 59 := by
  obtain ⟨cs⟩ := s
  rcases cs with _ | ⟨a, _ | ⟨b, _ | ⟨c, _ | ⟨d, _ | ⟨e, _ | ⟨f, r⟩⟩⟩⟩⟩⟩ <;>
    simp [wellFormedTime] at h
  · obtain ⟨⟨⟨⟨ha, rfl⟩, hc⟩, hd⟩, hm⟩ := h
    have hac : a ≠ ':' := by
      intro h; subst h; simp [isAsciiDigit] at ha
    have hcc : c ≠ ':' := by
      intro h; subst h; simp [isAsciiDigit] at hc
    have hdc : d ≠ ':' := by
      intro h; subst h; simp [isAsciiDigit] at hd
    simp [isAsciiDigit] at ha hc hd
    simp [parseAdminTime, split, splitChars, hac, hcc, hdc, Number, isAsciiDigit, ha, hc, hd,
      specHours, specMinutes, digitValue] at hm ⊢
    omega
  · obtain ⟨⟨⟨⟨⟨⟨ha, hb⟩, rfl⟩, hd⟩, he⟩, hh⟩, hm⟩ := h
    have hac : a ≠ ':' := by
      intro h; subst h; simp [isAsciiDigit] at ha
    have hbc : b ≠ ':' := by
      intro h; subst h; simp [isAsciiDigit] at hb
    have hdc : d ≠ ':' := by
      intro h; subst h; simp [isAsciiDigit] at hd
    have hec : e ≠ ':' := by
      intro h; subst h; simp [isAsciiDigit] at he
    simp [isAsciiDigit] at ha hb hd he
    simp [parseAdminTime, split, splitChars, hac, hbc, hdc, hec, Number, isAsciiDigit,
      ha, hb, hd, he, specHours, specMinutes, digitValue] at hh hm ⊢
    omega

theorem digitChar_toNat (k : Nat) (h : k < 10) : (Nat.digitChar k).toNat = 48 + k := by
  interval_cases k <;> rfl

theorem zeroPad2_of_lt (n : Nat) (h : n < 100) :
    zeroPad2 n = String.mk [Nat.digitChar (n / 10), Nat.digitChar (n % 10)] := by
  interval_cases n <;> rfl

theorem parseAdminTime_digits (a b c e : Nat) (ha : a < 10) (hb : b < 10) (hc : c < 10)
    (he : e < 10) :
    parseAdminTime (String.mk [Nat.digitChar a, Nat.digitChar b, ':', Nat.digitChar c,
      Nat.digitChar e]) = (some (a * 10 + b), some (c * 10 + e)) := by
  have h1 := digitChar_toNat a ha
  have h2 := digitChar_toNat b hb
  have h3 := digitChar_toNat c hc
  have h4 := digitChar_toNat e he
  have n1 : Nat.digitChar a ≠ ':' := by
    rw [Ne, char_eq_iff_toNat, h1]; simp; omega
  have n2 : Nat.digitChar b ≠ ':' := by
    rw [Ne, char_eq_iff_toNat, h2]; simp; omega
  have n3 : Nat.digitChar c ≠ ':' := by
    rw [Ne, char_eq_iff_toNat, h3]; simp; omega
  have n4 : Nat.digitChar e ≠ ':' := by
    rw [Ne, char_eq_iff_toNat, h4]; simp; omega
  simp [parseAdminTime, split, splitChars, n1, n2, n3, n4, Number, isAsciiDigit, h1, h2, h3, h4]
  omega

theorem parseAdminTime_timeString (h m : Nat) (hh : h < 100) (hm : m < 100) :
    parseAdminTime (timeString h m) = (some h, some m) := by
  have e : timeString h m = String.mk [Nat.digitChar (h / 10), Nat.digitChar (h % 10), ':',
      Nat.digitChar (m / 10), Nat.digitChar (m % 10)] := by
    rw [timeString_eq, zeroPad2_of_lt h hh, zeroPad2_of_lt m hm]; rfl
  rw [e, parseAdminTime_digits _ _ _ _ (by omega) (by omega) (by omega) (by omega)]
  congr 2 <;> omega

/-! ## The progression of slot times -/

theorem mem_specTimes (wh : WorkingHours) (hd : 0 < wh.slotDuration) (t : Nat) :
    t ∈ specTimes wh ↔
      wh.start * 60 ≤ t ∧ t < wh.end_ * 60 ∧ wh.slotDuration ∣ (t - wh.start * 60) := by
  simp only [specTimes, List.mem_map, List.mem_range]
  constructor
  · rintro ⟨k, hk, rfl⟩
    have hk2 : (k + 1) * wh.slotDuration ≤ wh.end_ * 60 - wh.start * 60 + wh.slotDuration - 1 :=
      (Nat.le_div_iff_mul_le hd).1 hk
    rw [Nat.succ_mul] at hk2
    refine ⟨by omega, by omega, ?_⟩
    rw [Nat.add_sub_cancel_left]
    exact Nat.dvd_mul_left _ _
  · rintro ⟨hle, hlt, q, hq⟩
    rw [Nat.mul_comm wh.slotDuration q] at hq
    refine ⟨q, ?_, by omega⟩
    apply (Nat.le_div_iff_mul_le hd).2
    rw [Nat.succ_mul]
    omega

theorem specTimes_pairwise (wh : WorkingHours) (hd : 0 < wh.slotDuration) :
    (specTimes wh).Pairwise (· < ·) := by
  unfold specTimes
  rw [List.pairwise_map]
  refine (List.pairwise_lt_range _).imp ?_
  intro a b hab
  have : a * wh.slotDuration < b * wh.slotDuration := Nat.mul_lt_mul_of_pos_right hab hd
  omega

/-! ## Sets as insertion-ordered lists -/

theorem mem_setAdd (s : List String) (x y : String) : y ∈ setAdd s x ↔ y ∈ s ∨ y = x := by
  unfold setAdd
  split
  · constructor
    · exact Or.inl
    · rintro (h | rfl) <;> assumption
  · simp

theorem nodup_setAdd (s : List String) (x : String) (h : s.Nodup) : (setAdd s x).Nodup := by
  unfold setAdd
  split
  · exact h
  · next hx =>
    rw [List.nodup_append]
    refine ⟨h, List.nodup_singleton x, ?_⟩
    intro a ha hb
    rw [List.mem_singleton] at hb
    subst hb; exact hx ha

theorem mem_foldl_setAdd (l : List String) (y : String) :
    ∀ acc : List String, y ∈ l.foldl setAdd acc ↔ y ∈ acc ∨ y ∈ l := by
  induction l with
  | nil => intro acc; simp
  | cons x xs ih =>
    intro acc
    rw [List.foldl_cons, ih, mem_setAdd, List.mem_cons]
    tauto

theorem nodup_foldl_setAdd (l : List String) :
    ∀ acc : List String, acc.Nodup → (l.foldl setAdd acc).Nodup := by
  induction l with
  | nil => intro acc h; exact h
  | cons x xs ih =>
    intro acc h
    exact ih _ (nodup_setAdd acc x h)

theorem mem_newSet (l : List String) (y : String) : y ∈ newSet l ↔ y ∈ l := by
  simp [newSet, mem_foldl_setAdd]

theorem nodup_newSet (l : List String) : (newSet l).Nodup :=
  nodup_foldl_setAdd l [] List.nodup_nil

theorem foldl_setAdd_of_nodup (l : List String) :
    ∀ acc : List String, (acc ++ l).Nodup → l.foldl setAdd acc = acc ++ l := by
  induction l with
  | nil => intro acc _; simp
  | cons x xs ih =>
    intro acc h
    have hx : x ∉ acc := by
      intro hx
      rw [List.nodup_append] at h
      exact h.2.2 hx (List.mem_cons_self _ _)
    rw [List.foldl_cons, setAdd, if_neg hx, ih]
    · simp
    · simpa using h

theorem newSet_of_nodup (l : List String) (h : l.Nodup) : newSet l = l := by
  simpa [newSet] using foldl_setAdd_of_nodup l [] (by simpa using h)

/-! ## The catalog and the admin checks -/

theorem adminTimeOk_eq (s : String) : adminTimeOk s = wellFormedTime s := by
  unfold adminTimeOk
  rw [matchesWhole_eq_wellFormedTime]
  obtain ⟨cs⟩ := s
  cases cs with
  | nil => rfl
  | cons c cs => simp [String.length]

theorem mem_catalog_iff (wh : WorkingHours) (hd : 0 < wh.slotDuration) (he : wh.end_ ≤ 24)
    (h m : Nat) (hm : m < 60) (hh : h < 100) :
    timeString h m ∈ ((specTimes wh).map slotAt).map (fun s => s.time) ↔
      h * 60 + m ∈ specTimes wh := by
  simp only [List.mem_map]
  constructor
  · rintro ⟨_, ⟨t, ht, rfl⟩, heq⟩
    have hlt := ((mem_specTimes wh hd t).1 ht).2.1
    have hp := congrArg parseAdminTime heq
    simp only [slotAt] at hp
    rw [parseAdminTime_timeString _ _ (by omega) (by omega),
      parseAdminTime_timeString _ _ hh (by omega)] at hp
    simp only [Prod.mk.injEq, Option.some.injEq] at hp
    have : h * 60 + m = t := by omega
    rw [this]; exact ht
  · intro ht
    refine ⟨slotAt (h * 60 + m), ⟨_, ht, rfl⟩, ?_⟩
    have h1 : (h * 60 + m) / 60 = h := by omega
    have h2 : (h * 60 + m) % 60 = m := by omega
    simp only [slotAt, h1, h2]

theorem mem_specTimes_thirty (wh : WorkingHours) (hd : wh.slotDuration = 30) (h m : Nat)
    (hm : m < 60) :
    h * 60 + m ∈ specTimes wh ↔ (wh.start ≤ h ∧ h < wh.end_ ∧ m % 30 = 0) := by
  rw [mem_specTimes wh (by omega), hd]
  omega

theorem outsideWorkingHours_some (wh : WorkingHours) (h m : Nat) :
    outsideWorkingHours wh (some h) (some m) = true ↔
      (h < wh.start ∨ h ≥ wh.end_ ∨ m % 30 ≠ 0) := by
  simp [outsideWorkingHours, or_assoc]

theorem handleAdminBook_of_wellFormed (wh : WorkingHours) (st : State)
    (hw : wellFormedTime st.adminTime = true) :
    handleAdminBook wh st =
      if outsideWorkingHours wh (some (specHours st.adminTime)) (some (specMinutes st.adminTime))
      then
        (.outOfRange,
          { st with confirmationMessage :=
              "Time must be within working hours (" ++ Nat.repr wh.start ++ ":00-" ++
                Nat.repr wh.end_ ++ ":00) and align with 30-minute slots" })
      else if timeString (specHours st.adminTime) (specMinutes st.adminTime) ∈ st.bookedSlots then
        (.alreadyBooked, { st with confirmationMessage := "This slot is already booked" })
      else
        (.booked,
          { st with
            bookedSlots :=
              newSet (st.bookedSlots ++
                [timeString (specHours st.adminTime) (specMinutes st.adminTime)])
            confirmationMessage :=
              "Admin: Pre-booked slot for " ++
                formatTime12Hour (specHours st.adminTime) (specMinutes st.adminTime)
            adminTime := "" }) := by
  have hp := (parseAdminTime_of_wellFormed _ hw).1
  simp only [handleAdminBook, adminTimeOk_eq, hw, hp, Bool.not_true, Bool.false_eq_true,
    if_false, Option.getD_some]

theorem handleAdminBook_of_not_wellFormed (wh : WorkingHours) (st : State)
    (hw : wellFormedTime st.adminTime = false) :
    handleAdminBook wh st =
      (.malformedTime,
        { st with confirmationMessage :=
            "Please enter a valid time in HH:MM format (e.g., 14:00)" }) := by
  simp [handleAdminBook, adminTimeOk_eq, hw]

theorem normalizedId_of_wellFormed (s : String) (hw : wellFormedTime s = true) :
    normalizedId s = some (timeString (specHours s) (specMinutes s)) := by
  have hp := (parseAdminTime_of_wellFormed _ hw).1
  simp [normalizedId, adminTimeOk_eq, hw, hp]

theorem normalizedId_of_not_wellFormed (s : String) (hw : wellFormedTime s = false) :
    normalizedId s = none := by
  simp [normalizedId, adminTimeOk_eq, hw]

theorem timeSlots_eq : timeSlots = (specTimes WORKING_HOURS).map slotAt := by
  rw [timeSlots, generateTimeSlots_eq WORKING_HOURS (by decide)]
  rfl

theorem displayOf_of_not_mem (slots : List Slot) (x : String)
    (h : x ∉ slots.map (fun s => s.time)) : displayOf slots x = "undefined" := by
  have : slots.find? (fun s => decide (s.time = x)) = none := by
    rw [List.find?_eq_none]
    intro s hs
    simp only [decide_eq_true_eq]
    intro he
    exact h (List.mem_map.2 ⟨s, hs, he⟩)
  simp [displayOf, this]

/-! ## Bookings only grow the set -/

theorem handleSlotClick_bookedSlots (slots : List Slot) (st : State) (x : String) :
    (handleSlotClick slots st x).2.bookedSlots =
      if x ∈ st.bookedSlots then st.bookedSlots else newSet (st.bookedSlots ++ [x]) := by
  unfold handleSlotClick
  split <;> rfl

theorem handleAdminBook_bookedSlots (wh : WorkingHours) (st : State) :
    (handleAdminBook wh st).2.bookedSlots = st.bookedSlots ∨
      ∃ id, (handleAdminBook wh st).1 = Outcome.booked ∧ normalizedId st.adminTime = some id ∧
        id ∉ st.bookedSlots ∧
        (handleAdminBook wh st).2.bookedSlots = newSet (st.bookedSlots ++ [id]) := by
  cases hw : wellFormedTime st.adminTime with
  | false => left; rw [handleAdminBook_of_not_wellFormed wh st hw]
  | true =>
    rw [handleAdminBook_of_wellFormed wh st hw, normalizedId_of_wellFormed _ hw]
    split_ifs with h1 h2
    · left; rfl
    · left; rfl
    · right; exact ⟨_, rfl, rfl, h2, rfl⟩

theorem request_bookedSlots (slots : List Slot) (wh : WorkingHours) (st : State) (r : Request) :
    (request slots wh st r).2.bookedSlots = st.bookedSlots ∨
      ∃ id, (request slots wh st r).2.bookedSlots = newSet (st.bookedSlots ++ [id]) := by
  cases r with
  | click x =>
    simp only [request, handleSlotClick_bookedSlots]
    split_ifs
    · left; rfl
    · right; exact ⟨x, rfl⟩
  | admin raw =>
    rcases handleAdminBook_bookedSlots wh { st with adminTime := raw } with h | ⟨id, _, _, _, h⟩
    · left; exact h
    · right; exact ⟨id, h⟩

theorem request_mem_mono (slots : List Slot) (wh : WorkingHours) (st : State) (r : Request)
    (s : String) (h : s ∈ st.bookedSlots) : s ∈ (request slots wh st r).2.bookedSlots := by
  rcases request_bookedSlots slots wh st r with e | ⟨id, e⟩ <;> rw [e]
  · exact h
  · rw [mem_newSet]; exact List.mem_append_left _ h

theorem request_nodup (slots : List Slot) (wh : WorkingHours) (st : State) (r : Request)
    (h : st.bookedSlots.Nodup) : (request slots wh st r).2.bookedSlots.Nodup := by
  rcases request_bookedSlots slots wh st r with e | ⟨id, e⟩ <;> rw [e]
  · exact h
  · exact nodup_newSet _

theorem runRequests_mem_nodup (slots : List Slot) (wh : WorkingHours) (rs : List Request)
    (s : String) :
    ∀ st : State, s ∈ st.bookedSlots → st.bookedSlots.Nodup →
      s ∈ (runRequests slots wh st rs).bookedSlots ∧
        (runRequests slots wh st rs).bookedSlots.Nodup := by
  induction rs with
  | nil => intro st h1 h2; exact ⟨h1, h2⟩
  | cons r rs ih =>
    intro st h1 h2
    exact ih _ (request_mem_mono slots wh st r s h1) (request_nodup slots wh st r h2)

theorem request_booked_mem (slots : List Slot) (wh : WorkingHours) (st : State) (r : Request)
    (s : String) (ha : r.asksFor s) (hb : (request slots wh st r).1 = Outcome.booked) :
    s ∈ (request slots wh st r).2.bookedSlots ∧ (request slots wh st r).2.bookedSlots.Nodup := by
  cases r with
  | click x =>
    have hx : x = s := ha
    subst hx
    simp only [request] at hb ⊢
    rw [handleSlotClick_bookedSlots]
    split_ifs with hm
    · simp [handleSlotClick, hm] at hb
    · exact ⟨(mem_newSet _ _).2 (by simp), nodup_newSet _⟩
  | admin raw =>
    have hn : normalizedId raw = some s := ha
    simp only [request] at hb ⊢
    rcases handleAdminBook_bookedSlots wh { st with adminTime := raw } with e | ⟨id, _, hid, _, e⟩
    · exfalso
      cases hw : wellFormedTime raw with
      | false => rw [normalizedId_of_not_wellFormed _ hw] at hn; cases hn
      | true =>
        have hw2 : wellFormedTime ({ st with adminTime := raw } : State).adminTime = true := hw
        rw [handleAdminBook_of_wellFormed wh _ hw2] at hb e
        split_ifs at hb e with h1 h2
        have hmem : timeString (specHours raw) (specMinutes raw) ∈
            newSet (st.bookedSlots ++ [timeString (specHours raw) (specMinutes raw)]) :=
          (mem_newSet _ _).2 (by simp)
        have e2 : newSet (st.bookedSlots ++ [timeString (specHours raw) (specMinutes raw)]) =
            st.bookedSlots := e
        rw [e2] at hmem
        exact h2 hmem
    · have : id = s := by
        have hid2 : normalizedId raw = some id := hid
        rw [hn] at hid2; exact (Option.some.inj hid2).symm
      subst this
      rw [e]
      exact ⟨(mem_newSet _ _).2 (by simp), nodup_newSet _⟩

theorem request_again (st : State) (r : Request) (s : String)
    (hs : s ∈ timeSlots.map (fun x => x.time)) (ha : r.asksFor s) (hm : s ∈ st.bookedSlots) :
    (request timeSlots WORKING_HOURS st r).1 = Outcome.alreadyBooked ∧
      (request timeSlots WORKING_HOURS st r).2.bookedSlots = st.bookedSlots := by
  cases r with
  | click x =>
    have hx : x = s := ha
    subst hx
    simp [request, handleSlotClick, hm]
  | admin raw =>
    have hn : normalizedId raw = some s := ha
    cases hw : wellFormedTime raw with
    | false => rw [normalizedId_of_not_wellFormed _ hw] at hn; cases hn
    | true =>
      obtain ⟨_, hh, hmin⟩ := parseAdminTime_of_wellFormed raw hw
      rw [normalizedId_of_wellFormed _ hw] at hn
      have hts : timeString (specHours raw) (specMinutes raw) = s := Option.some.inj hn
      rw [← hts, timeSlots_eq,
        mem_catalog_iff WORKING_HOURS (by decide) (by decide) _ _ (by omega) (by omega),
        mem_specTimes_thirty WORKING_HOURS rfl _ _ (by omega)] at hs
      have hout : outsideWorkingHours WORKING_HOURS (some (specHours raw))
          (some (specMinutes raw)) = false := by
        rw [← Bool.not_eq_true, outsideWorkingHours_some]
        omega
      have hw2 : wellFormedTime ({ st with adminTime := raw } : State).adminTime = true := hw
      have hm2 : timeString (specHours raw) (specMinutes raw) ∈ st.bookedSlots := by
        rw [hts]; exact hm
      simp only [request]
      rw [handleAdminBook_of_wellFormed WORKING_HOURS _ hw2]
      simp [hout, hm2]

theorem minuteOfDay_slotAt (t : Nat) (ht : t < 6000) : minuteOfDay (slotAt t).time = some t := by
  simp only [minuteOfDay, slotAt]
  rw [parseAdminTime_timeString _ _ (by omega) (by omega)]
  simp only [Option.some.injEq]
  omega


/-! ## The claims -/

/-- Claim C1, amended. `handleSlotClick` has no catalog-membership test and no
unknown-slot outcome. For a `slotId` that is the id of no slot of the catalog:
if it is already in the booked set the handler reports "already booked" and
leaves the set unchanged; otherwise it reports a booking, the booked set
becomes the old set plus `slotId`, and the message names the label
`undefined`. -/
theorem handleSlotClick_unknown_slot (slots : List Slot) (st : State) (slotId : String)
    (h : slotId ∉ slots.map (fun s => s.time)) :
    (handleSlotClick slots st slotId).1 ≠ Outcome.unknownSlot ∧
    (slotId ∈ st.bookedSlots →
      (handleSlotClick slots st slotId).1 = Outcome.alreadyBooked ∧
      (handleSlotClick slots st slotId).2.bookedSlots = st.bookedSlots) ∧
    (slotId ∉ st.bookedSlots →
      (handleSlotClick slots st slotId).1 = Outcome.booked ∧
      slotId ∈ (handleSlotClick slots st slotId).2.bookedSlots ∧
      (∀ y, y ∈ (handleSlotClick slots st slotId).2.bookedSlots ↔
        y ∈ st.bookedSlots ∨ y = slotId) ∧
      (handleSlotClick slots st slotId).2.confirmationMessage =
        "Appointment booked for undefined!") := by
  by_cases hb : slotId ∈ st.bookedSlots
  · simp [handleSlotClick, hb]
  · simp [handleSlotClick, hb, mem_newSet, displayOf_of_not_mem slots slotId h]

/-- Claim C1, amended, at the id `25:00` on the empty ledger. -/
theorem handleSlotClick_unknown_slot_witness :
    "25:00" ∉ timeSlots.map (fun s => s.time) ∧
    (handleSlotClick timeSlots (initialState "2024-01-01") "25:00").2.confirmationMessage =
      "Appointment booked for undefined!" :=
  ⟨by decide,
    ((handleSlotClick_unknown_slot timeSlots (initialState "2024-01-01") "25:00"
      (by decide)).2.2 (by decide)).2.2.2⟩

/-- Claim C1 as stated fails: `25:00` is the id of no catalog slot, yet a
click carrying it on the empty ledger is not rejected as an unknown slot; it
is reported as booked and `25:00` enters the booked set. -/
theorem handleSlotClick_unknown_slot_counterexample :
    "25:00" ∉ timeSlots.map (fun s => s.time) ∧
    (handleSlotClick timeSlots (initialState "2024-01-01") "25:00").1 ≠ Outcome.unknownSlot ∧
    (handleSlotClick timeSlots (initialState "2024-01-01") "25:00").1 = Outcome.booked ∧
    "25:00" ∈ (handleSlotClick timeSlots (initialState "2024-01-01") "25:00").2.bookedSlots := by
  decide

/-- Claim C2. Let `s` be the id of a catalog slot. If a request for `s` (a
click on `s`, or an admin text normalizing to `s`) succeeds, then after any
further booking requests a new request for `s`, through either entry point,
is answered "already booked", leaves the booked set as it was, and the booked
set contains `s` exactly once. -/
theorem booked_slot_stays_booked (s : String) (hs : s ∈ timeSlots.map (fun x => x.time))
    (st : State) (first : Request) (later : List Request) (again : Request)
    (h1 : first.asksFor s) (h2 : again.asksFor s)
    (hb : (request timeSlots WORKING_HOURS st first).1 = Outcome.booked) :
    (request timeSlots WORKING_HOURS
      (runRequests timeSlots WORKING_HOURS (request timeSlots WORKING_HOURS st first).2 later)
      again).1 = Outcome.alreadyBooked ∧
    (request timeSlots WORKING_HOURS
      (runRequests timeSlots WORKING_HOURS (request timeSlots WORKING_HOURS st first).2 later)
      again).2.bookedSlots =
      (runRequests timeSlots WORKING_HOURS (request timeSlots WORKING_HOURS st first).2
        later).bookedSlots ∧
    (runRequests timeSlots WORKING_HOURS (request timeSlots WORKING_HOURS st first).2
      later).bookedSlots.count s = 1 := by
  obtain ⟨hm, hn⟩ := request_booked_mem timeSlots WORKING_HOURS st first s h1 hb
  obtain ⟨hm2, hn2⟩ := runRequests_mem_nodup timeSlots WORKING_HOURS later s _ hm hn
  obtain ⟨ho, he⟩ := request_again _ again s hs h2 hm2
  exact ⟨ho, he, List.count_eq_one_of_mem hn2 hm2⟩

/-- Claim C2 at `09:00`: booked by a click, asked again as the admin text
`9:00` after two other bookings. -/
theorem booked_slot_stays_booked_witness :
    (request timeSlots WORKING_HOURS
      (runRequests timeSlots WORKING_HOURS
        (request timeSlots WORKING_HOURS (initialState "2024-01-01") (Request.click "09:00")).2
        [Request.admin "10:30", Request.click "09:30"])
      (Request.admin "9:00")).1 = Outcome.alreadyBooked ∧
    (runRequests timeSlots WORKING_HOURS
      (request timeSlots WORKING_HOURS (initialState "2024-01-01") (Request.click "09:00")).2
      [Request.admin "10:30", Request.click "09:30"]).bookedSlots = ["09:00", "10:30", "09:30"] :=
  ⟨(booked_slot_stays_booked "09:00" (by decide) (initialState "2024-01-01")
      (Request.click "09:00") [Request.admin "10:30", Request.click "09:30"]
      (Request.admin "9:00") (by decide) (by decide) (by decide)).1, by decide⟩

/-- Claim C3. Whenever a booking request, through either entry point, ends in
one of the four errors, the booked set after the call is the booked set before
it. -/
theorem failed_booking_keeps_bookedSlots (slots : List Slot) (wh : WorkingHours) (st : State)
    (r : Request)
    (herr : (request slots wh st r).1 = Outcome.unknownSlot ∨
      (request slots wh st r).1 = Outcome.alreadyBooked ∨
      (request slots wh st r).1 = Outcome.malformedTime ∨
      (request slots wh st r).1 = Outcome.outOfRange) :
    (request slots wh st r).2.bookedSlots = st.bookedSlots := by
  have hne : (request slots wh st r).1 ≠ Outcome.booked := by
    rcases herr with h | h | h | h <;> rw [h] <;> decide
  cases r with
  | click x =>
    simp only [request] at hne ⊢
    unfold handleSlotClick at hne ⊢
    split_ifs at hne ⊢ with h
    · rfl
    · exact absurd rfl hne
  | admin raw =>
    simp only [request] at hne ⊢
    rcases handleAdminBook_bookedSlots wh { st with adminTime := raw } with e | ⟨_, hb, _⟩
    · exact e
    · exact absurd hb hne

/-- Claim C3 at the malformed admin text `25:00` on a ledger holding `09:00`. -/
theorem failed_booking_keeps_bookedSlots_witness :
    (request timeSlots WORKING_HOURS
      { initialState "2024-01-01" with bookedSlots := ["09:00"] } (Request.admin "25:00")).2.bookedSlots
      = ["09:00"] :=
  failed_booking_keeps_bookedSlots timeSlots WORKING_HOURS
    { initialState "2024-01-01" with bookedSlots := ["09:00"] } (Request.admin "25:00")
    (Or.inr (Or.inr (Or.inl (by decide))))

/-- Claim C4. `handleAdminBook` ends in the malformed-time branch exactly when
the text does not match the pattern `^([01]?[0-9]|2[0-3]):[0-5][0-9]$`, and the
pattern accepts exactly the texts made of one or two hour digits giving 0..23,
a colon, and two minute digits giving 00..59. The texts `25:00`, `abc` and the
empty text are malformed; `9:00` and `09:00` are not. -/
theorem malformed_iff_not_pattern :
    (∀ (wh : WorkingHours) (st : State) (rawTimeText : String),
      ((handleAdminBook wh { st with adminTime := rawTimeText }).1 = Outcome.malformedTime ↔
        adminTimePattern.matchesWhole rawTimeText = false) ∧
      adminTimePattern.matchesWhole rawTimeText = wellFormedTime rawTimeText) ∧
    (∀ (wh : WorkingHours) (st : State),
      (handleAdminBook wh { st with adminTime := "25:00" }).1 = Outcome.malformedTime ∧
      (handleAdminBook wh { st with adminTime := "abc" }).1 = Outcome.malformedTime ∧
      (handleAdminBook wh { st with adminTime := "" }).1 = Outcome.malformedTime ∧
      (handleAdminBook wh { st with adminTime := "9:00" }).1 ≠ Outcome.malformedTime ∧
      (handleAdminBook wh { st with adminTime := "09:00" }).1 ≠ Outcome.malformedTime) := by
  have key : ∀ (wh : WorkingHours) (st : State) (raw : String),
      (handleAdminBook wh { st with adminTime := raw }).1 = Outcome.malformedTime ↔
        wellFormedTime raw = false := by
    intro wh st raw
    cases hw : wellFormedTime raw with
    | false =>
      have hw2 : wellFormedTime ({ st with adminTime := raw } : State).adminTime = false := hw
      rw [handleAdminBook_of_not_wellFormed wh _ hw2]
      simp
    | true =>
      have hw2 : wellFormedTime ({ st with adminTime := raw } : State).adminTime = true := hw
      rw [handleAdminBook_of_wellFormed wh _ hw2]
      split_ifs <;> simp
  refine ⟨fun wh st raw => ⟨?_, matchesWhole_eq_wellFormedTime raw⟩, fun wh st => ?_⟩
  · rw [matchesWhole_eq_wellFormedTime]; exact key wh st raw
  · refine ⟨(key wh st _).2 (by decide), (key wh st _).2 (by decide), (key wh st _).2 (by decide),
      ?_, ?_⟩
    · rw [Ne, key]; decide
    · rw [Ne, key]; decide

/-- Claim C5. For a text matching the pattern, `split` and `Number` yield the
hour and minute the digits denote, and `handleAdminBook` ends in the
out-of-range branch exactly when `hours < start`, `hours ≥ end` or
`minutes mod slotDuration ≠ 0`, for the configuration 9, 17, 30 of the
component. `09:15` and `17:00` are out of range; `09:00` on the empty ledger is
booked. -/
theorem outOfRange_iff :
    (∀ (st : State) (rawTimeText : String),
      adminTimePattern.matchesWhole rawTimeText = true →
      parseAdminTime rawTimeText =
        (some (specHours rawTimeText), some (specMinutes rawTimeText)) ∧
      ((handleAdminBook WORKING_HOURS { st with adminTime := rawTimeText }).1 =
          Outcome.outOfRange ↔
        (specHours rawTimeText < WORKING_HOURS.start ∨
          specHours rawTimeText ≥ WORKING_HOURS.end_ ∨
          specMinutes rawTimeText % WORKING_HOURS.slotDuration ≠ 0))) ∧
    (∀ st : State,
      (handleAdminBook WORKING_HOURS { st with adminTime := "09:15" }).1 = Outcome.outOfRange ∧
      (handleAdminBook WORKING_HOURS { st with adminTime := "17:00" }).1 = Outcome.outOfRange) ∧
    (∀ day : String,
      (handleAdminBook WORKING_HOURS { initialState day with adminTime := "09:00" }).1 =
        Outcome.booked ∧
      (handleAdminBook WORKING_HOURS { initialState day with adminTime := "09:00" }).2.bookedSlots
        = ["09:00"]) := by
  have key : ∀ (st : State) (raw : String), wellFormedTime raw = true →
      ((handleAdminBook WORKING_HOURS { st with adminTime := raw }).1 = Outcome.outOfRange ↔
        (specHours raw < WORKING_HOURS.start ∨ specHours raw ≥ WORKING_HOURS.end_ ∨
          specMinutes raw % WORKING_HOURS.slotDuration ≠ 0)) := by
    intro st raw hw
    have hw2 : wellFormedTime ({ st with adminTime := raw } : State).adminTime = true := hw
    rw [handleAdminBook_of_wellFormed WORKING_HOURS _ hw2]
    have ho := outsideWorkingHours_some WORKING_HOURS (specHours raw) (specMinutes raw)
    have hd : WORKING_HOURS.slotDuration = 30 := rfl
    rw [hd, ← ho]
    split_ifs with h1 h2
    · simp [h1]
    · simp [h1]
    · simp [h1]
  refine ⟨fun st raw hm => ?_, fun st => ⟨?_, ?_⟩, fun day => ?_⟩
  · rw [matchesWhole_eq_wellFormedTime] at hm
    exact ⟨(parseAdminTime_of_wellFormed raw hm).1, key st raw hm⟩
  · rw [key st _ (by decide)]; decide
  · rw [key st _ (by decide)]; decide
  · exact ⟨rfl, rfl⟩

/-- Claim C5 at the text `8:30`, which matches the pattern and lies before
the start hour. -/
theorem outOfRange_iff_witness :
    adminTimePattern.matchesWhole "8:30" = true ∧
    (handleAdminBook WORKING_HOURS { initialState "2024-01-01" with adminTime := "8:30" }).1 =
      Outcome.outOfRange :=
  ⟨by decide,
    ((outOfRange_iff.1 (initialState "2024-01-01") "8:30" (by decide)).2).2
      (Or.inl (by decide))⟩

/-- Claim C6. For a text matching the pattern, the range and alignment test of
`handleAdminBook` passes exactly when the normalized id (zero-padded hour,
colon, zero-padded minute) is the id of a slot of the catalog; hence every id
in the booked set after a successful admin booking was either there before or
is a catalog id. -/
theorem admin_check_iff_catalog :
    (∀ rawTimeText : String, adminTimePattern.matchesWhole rawTimeText = true →
      ∃ id, normalizedId rawTimeText = some id ∧
        id = zeroPad2 (specHours rawTimeText) ++ ":" ++ zeroPad2 (specMinutes rawTimeText) ∧
        (outsideWorkingHours WORKING_HOURS (parseAdminTime rawTimeText).1
            (parseAdminTime rawTimeText).2 = false ↔
          id ∈ timeSlots.map (fun s => s.time)) ∧
        ((WORKING_HOURS.start ≤ specHours rawTimeText ∧
            specHours rawTimeText < WORKING_HOURS.end_ ∧
            specMinutes rawTimeText % WORKING_HOURS.slotDuration = 0) ↔
          id ∈ timeSlots.map (fun s => s.time))) ∧
    (∀ (st : State) (rawTimeText : String),
      (handleAdminBook WORKING_HOURS { st with adminTime := rawTimeText }).1 = Outcome.booked →
      ∀ y ∈ (handleAdminBook WORKING_HOURS { st with adminTime := rawTimeText }).2.bookedSlots,
        y ∈ st.bookedSlots ∨ y ∈ timeSlots.map (fun s => s.time)) := by
  have key : ∀ raw : String, wellFormedTime raw = true →
      (timeString (specHours raw) (specMinutes raw) ∈ timeSlots.map (fun s => s.time) ↔
        (WORKING_HOURS.start ≤ specHours raw ∧ specHours raw < WORKING_HOURS.end_ ∧
          specMinutes raw % 30 = 0)) := by
    intro raw hw
    obtain ⟨_, hh, hmin⟩ := parseAdminTime_of_wellFormed raw hw
    rw [timeSlots_eq,
      mem_catalog_iff WORKING_HOURS (by decide) (by decide) _ _ (by omega) (by omega),
      mem_specTimes_thirty WORKING_HOURS rfl _ _ (by omega)]
  constructor
  · intro raw hm
    rw [matchesWhole_eq_wellFormedTime] at hm
    refine ⟨_, normalizedId_of_wellFormed raw hm, timeString_eq _ _, ?_, ?_⟩
    · rw [(parseAdminTime_of_wellFormed raw hm).1, key raw hm, ← Bool.not_eq_true,
        outsideWorkingHours_some]
      omega
    · rw [key raw hm]; rfl
  · intro st raw hb y hy
    cases hw : wellFormedTime raw with
    | false =>
      have hw2 : wellFormedTime ({ st with adminTime := raw } : State).adminTime = false := hw
      rw [handleAdminBook_of_not_wellFormed WORKING_HOURS _ hw2] at hb
      cases hb
    | true =>
      have hw2 : wellFormedTime ({ st with adminTime := raw } : State).adminTime = true := hw
      rw [handleAdminBook_of_wellFormed WORKING_HOURS _ hw2] at hb hy
      split_ifs at hb hy with h1 h2
      have hy2 : y ∈ newSet (st.bookedSlots ++ [timeString (specHours raw) (specMinutes raw)]) :=
        hy
      rw [mem_newSet, List.mem_append, List.mem_singleton] at hy2
      rcases hy2 with h | h
      · exact Or.inl h
      · right
        rw [h, key raw hw]
        have h1' : ¬ (outsideWorkingHours WORKING_HOURS (some (specHours raw))
            (some (specMinutes raw)) = true) := h1
        rw [outsideWorkingHours_some] at h1'
        omega

/-- Claim C6 at the text `9:30`: its normalized id is in the catalog. -/
theorem admin_check_iff_catalog_witness :
    adminTimePattern.matchesWhole "9:30" = true ∧
    (∃ id, normalizedId "9:30" = some id ∧ id ∈ timeSlots.map (fun s => s.time)) := by
  refine ⟨by decide, ?_⟩
  obtain ⟨id, h1, _, h3, _⟩ := admin_check_iff_catalog.1 "9:30" (by decide)
  exact ⟨id, h1, h3.1 (by decide)⟩

/-- Claim C7. For a positive slot duration `generateTimeSlots` ends and returns
the slots of the minutes `start*60, start*60 + d, ...` below `end*60`, in that
order, each with the zero-padded `HH:MM` id and the 12-hour label of its hour
and minute. For the configuration 9, 17, 30 there are 16 slots, from
`09:00` / `9:00 AM` to `16:30` / `4:30 PM`. -/
theorem generateTimeSlots_sequence :
    (∀ wh : WorkingHours, 0 < wh.slotDuration →
      generateTimeSlots wh = some ((specTimes wh).map specSlot) ∧
      (specTimes wh).Pairwise (· < ·) ∧
      ∀ t, t ∈ specTimes wh ↔
        (t < wh.end_ * 60 ∧ ∃ k, t = wh.start * 60 + k * wh.slotDuration)) ∧
    generateTimeSlots WORKING_HOURS = some timeSlots ∧
    timeSlots.length = 16 ∧
    timeSlots.head? = some { time := "09:00", display := "9:00 AM" } ∧
    timeSlots.getLast? = some { time := "16:30", display := "4:30 PM" } := by
  refine ⟨fun wh hd => ⟨?_, specTimes_pairwise wh hd, fun t => ?_⟩, by decide, by decide,
    by decide, by decide⟩
  · rw [generateTimeSlots_eq wh hd]
    congr 1
    exact List.map_congr_left (fun t _ => slotAt_eq t)
  · rw [mem_specTimes wh hd]
    constructor
    · rintro ⟨h1, h2, q, hq⟩
      exact ⟨h2, q, by rw [Nat.mul_comm q]; omega⟩
    · rintro ⟨h2, k, rfl⟩
      refine ⟨by omega, h2, ?_⟩
      rw [Nat.add_sub_cancel_left]
      exact Nat.dvd_mul_left _ _

/-- Claim C7 at the configuration of the component. -/
theorem generateTimeSlots_sequence_witness :
    generateTimeSlots WORKING_HOURS = some ((specTimes WORKING_HOURS).map specSlot) :=
  (generateTimeSlots_sequence.1 WORKING_HOURS (by decide)).1

/-- Claim C8. For a valid configuration `generateTimeSlots` returns a catalog
whose ids, read back as minutes of the day, are strictly increasing; no two
slots share an id; and every slot lies a multiple of the duration after
`start*60`. -/
theorem catalog_invariant (wh : WorkingHours) (hv : ValidConfig wh) :
    ∃ slots : List Slot, generateTimeSlots wh = some slots ∧
      ∃ times : List Nat,
        slots.map (fun s => minuteOfDay s.time) = times.map some ∧
        times.Pairwise (· < ·) ∧
        (slots.map (fun s => s.time)).Nodup ∧
        ∀ t ∈ times, wh.start * 60 ≤ t ∧ wh.slotDuration ∣ (t - wh.start * 60) := by
  obtain ⟨_, he, hd, _⟩ := hv
  have hmap : ((specTimes wh).map slotAt).map (fun s => minuteOfDay s.time) =
      (specTimes wh).map some := by
    rw [List.map_map]
    apply List.map_congr_left
    intro t ht
    have := ((mem_specTimes wh hd t).1 ht).2.1
    exact minuteOfDay_slotAt t (by omega)
  refine ⟨_, generateTimeSlots_eq wh hd, specTimes wh, hmap, specTimes_pairwise wh hd, ?_, ?_⟩
  · have hn0 : (specTimes wh).Nodup :=
      (specTimes_pairwise wh hd).imp (fun h => Nat.ne_of_lt h)
    have hn : ((specTimes wh).map some).Nodup :=
      List.Nodup.map (Option.some_injective _) hn0
    have hcomp : ((specTimes wh).map slotAt).map (fun s => minuteOfDay s.time) =
        (((specTimes wh).map slotAt).map (fun s => s.time)).map minuteOfDay := by
      simp only [List.map_map, Function.comp_def]
    rw [← hmap, hcomp] at hn
    exact hn.of_map _
  · intro t ht
    have := (mem_specTimes wh hd t).1 ht
    exact ⟨this.1, this.2.2⟩

/-- Claim C8 at the configuration of the component. -/
theorem catalog_invariant_witness :
    ∃ slots : List Slot, generateTimeSlots WORKING_HOURS = some slots ∧
      (slots.map (fun s => s.time)).Nodup := by
  obtain ⟨slots, h1, _, _, _, h2, _⟩ :=
    catalog_invariant WORKING_HOURS (by decide)
  exact ⟨slots, h1, h2⟩

/-- Claim C9. For `h` in 0..23 and `m` in 0..59 the label is `<H>:<MM> <P>` with
`H` = 12 for hour 0, the hour from 1 to 12, the hour minus 12 from 13 on; `MM`
the minute zero-padded to two digits; `P` = `AM` before 12 and `PM` otherwise.
The labels of 0:00, 12:00 and 13:00 are `12:00 AM`, `12:00 PM`, `1:00 PM`. -/
theorem formatTime12Hour_label :
    (∀ h m : Nat, h ≤ 23 → m ≤ 59 →
      formatTime12Hour h m =
        Nat.repr (specDisplayHour h) ++ ":" ++ zeroPad2 m ++ " " ++ specPeriod h) ∧
    formatTime12Hour 0 0 = "12:00 AM" ∧
    formatTime12Hour 12 0 = "12:00 PM" ∧
    formatTime12Hour 13 0 = "1:00 PM" :=
  ⟨fun h m _ _ => formatTime12Hour_eq h m, by decide, by decide, by decide⟩

/-- Claim C9 at 23:05. -/
theorem formatTime12Hour_label_witness : formatTime12Hour 23 5 = "11:05 PM" :=
  (formatTime12Hour_label.1 23 5 (by decide) (by decide)).trans (by decide)

/-- Claim C10. From any state, in particular one reached by any sequence of
booking requests, `handleDateChange` returns a state whose booked set is empty
and whose selected day is the new day. -/
theorem handleDateChange_clears (slots : List Slot) (wh : WorkingHours) (st : State)
    (rs : List Request) (newDate : String) :
    (handleDateChange (runRequests slots wh st rs) newDate).bookedSlots = [] ∧
    (handleDateChange (runRequests slots wh st rs) newDate).selectedDate = newDate ∧
    (handleDateChange st newDate).bookedSlots = [] :=
  ⟨rfl, rfl, rfl⟩

end AppointmentBooker
